import Mathlib

/-!
Verification development for `doxygenize_cmake_options.py`.

The script reads a CMakeLists.txt file, scans it with the regular expression

  option\s*\(\s*([A-Za-z0-9_-]+)\s+"([^"]*)"\s*(?:(ON|OFF|TRUE|FALSE))?\s*\)

under `re.IGNORECASE` (function `parse_cmake_options`), renders the matches as
a pipe-delimited table (`generate_doxygen_table`), and prints the result
(`main`).  Text is modelled as `List Char`.  The regex is embedded as a
deterministic matcher: for this particular pattern, Python's backtracking
search is equivalent to maximal-munch scanning at every sub-step (each
`\s*`/`+`-repetition is followed by a token that cannot extend the repetition,
and at most one branch of the `ON|OFF|TRUE|FALSE` alternation can match at a
given position), so the functional matcher below computes exactly the match
that `re.finditer` finds.  `\s` is modelled by the exact character set that
CPython's `\s` matches in str patterns (the `Py_UNICODE_ISSPACE` set:
U+0009-U+000D, U+001C-U+001F, U+0020, U+0085, U+00A0, U+1680,
U+2000-U+200A, U+2028, U+2029, U+202F, U+205F, U+3000), and
case-insensitivity by ASCII `Char.toLower`, matching Python's behaviour on
the ASCII letters the pattern's literals consist of.
-/

/-- The double-quote character (written via its code point). -/
def dquote : Char := Char.ofNat 34

/-- The single-quote character (written via its code point). -/
def squote : Char := Char.ofNat 39

/-- Python's `\s` character class for str patterns: exactly the characters
for which CPython's `Py_UNICODE_ISSPACE` holds (the set used by `sre` for
Unicode patterns), i.e. U+0009-U+000D, U+001C-U+001F, space, U+0085 NEL,
U+00A0 NBSP, U+1680 Ogham space, U+2000-U+200A, U+2028, U+2029, U+202F,
U+205F, and U+3000. -/
def isWS (c : Char) : Bool :=
  c == ' ' || c == '\t' || c == '\n' || c == '\r' ||
  c == Char.ofNat 11 || c == Char.ofNat 12 ||
  c == Char.ofNat 28 || c == Char.ofNat 29 ||
  c == Char.ofNat 30 || c == Char.ofNat 31 ||
  c == Char.ofNat 133 || c == Char.ofNat 160 ||
  c == Char.ofNat 5760 || c == Char.ofNat 8192 ||
  c == Char.ofNat 8193 || c == Char.ofNat 8194 ||
  c == Char.ofNat 8195 || c == Char.ofNat 8196 ||
  c == Char.ofNat 8197 || c == Char.ofNat 8198 ||
  c == Char.ofNat 8199 || c == Char.ofNat 8200 ||
  c == Char.ofNat 8201 || c == Char.ofNat 8202 ||
  c == Char.ofNat 8232 || c == Char.ofNat 8233 ||
  c == Char.ofNat 8239 || c == Char.ofNat 8287 ||
  c == Char.ofNat 12288

/-- The character class `[A-Za-z0-9_-]` of the name capture group. -/
def isNameChar (c : Char) : Bool :=
  c.isAlpha || c.isDigit || c == '_' || c == '-'

/-- One extracted option: the dictionary
`{'name': ..., 'description': ..., 'default': ...}` built at lines 40-44. -/
structure OptionRecord where
  name : List Char
  description : List Char
  default : List Char
  deriving DecidableEq, Repr

/-- Lowercase spelling of the keyword literal `option` in the pattern. -/
def optionLit : List Char := ['o', 'p', 't', 'i', 'o', 'n']

/-- Lowercase spelling of the alternation branch `ON`. -/
def onLit : List Char := ['o', 'n']

/-- Lowercase spelling of the alternation branch `OFF`. -/
def offLitPat : List Char := ['o', 'f', 'f']

/-- Lowercase spelling of the alternation branch `TRUE`. -/
def trueLit : List Char := ['t', 'r', 'u', 'e']

/-- Lowercase spelling of the alternation branch `FALSE`. -/
def falseLit : List Char := ['f', 'a', 'l', 's', 'e']

/-- The fallback default `"OFF"` of line 38 (uppercase, as in the source). -/
def offDefault : List Char := ['O', 'F', 'F']

/-- Case-insensitive literal match: consume the characters of `lit`
(given lowercase) from the input, returning the remainder. -/
def matchLitCI : List Char → List Char → Option (List Char)
  | [], s => some s
  | _ :: _, [] => none
  | l :: ls, c :: s => if c.toLower = l then matchLitCI ls s else none

/-- `\s*`: drop the maximal whitespace run. -/
def dropWS (s : List Char) : List Char := s.dropWhile isWS

/-- Consume one required literal character. -/
def matchChar (ch : Char) : List Char → Option (List Char)
  | [] => none
  | c :: s => if c = ch then some s else none

/-- Try one alternation branch `lit` of the optional default group followed by
the continuation `\s*\)`; on success return the captured text (the consumed
characters, verbatim) and the remainder after `)`. -/
def tryTok (lit s : List Char) : Option (List Char × List Char) :=
  match matchLitCI lit s with
  | none => none
  | some r =>
    match matchChar ')' (dropWS r) with
    | none => none
    | some r2 => some (s.take lit.length, r2)

/-- The group `(?:(ON|OFF|TRUE|FALSE))?` with its continuation `\s*\)`:
branches are tried in the pattern's left-to-right order. -/
def tryDefault (s : List Char) : Option (List Char × List Char) :=
  match tryTok onLit s with
  | some x => some x
  | none =>
    match tryTok offLitPat s with
    | some x => some x
    | none =>
      match tryTok trueLit s with
      | some x => some x
      | none => tryTok falseLit s

/-- The tail of the pattern after the closing quote of the description:
`\s*(?:(ON|OFF|TRUE|FALSE))?\s*\)`, together with the record construction of
lines 36-44 (a missing group 3 yields the fallback default `"OFF"`). -/
def afterDesc (name desc s9 : List Char) : Option (OptionRecord × List Char) :=
  match tryDefault (dropWS s9) with
  | some (tok, rest) =>
    some ({ name := name, description := desc, default := tok }, rest)
  | none =>
    match matchChar ')' (dropWS s9) with
    | some rest =>
      some ({ name := name, description := desc, default := offDefault }, rest)
    | none => none

/-- Attempt the whole pattern at the start of `s`; on success return the
extracted record and the unconsumed remainder of the text. -/
def matchOptionAt (s : List Char) : Option (OptionRecord × List Char) :=
  match matchLitCI optionLit s with
  | none => none
  | some s1 =>
    match matchChar '(' (dropWS s1) with
    | none => none
    | some s3 =>
      if (dropWS s3).takeWhile isNameChar = [] then none
      else
        match (dropWS s3).dropWhile isNameChar with
        | [] => none
        | c :: s6 =>
          if isWS c then
            match matchChar dquote (dropWS s6) with
            | none => none
            | some s7 =>
              match matchChar dquote (s7.dropWhile (fun ch => ch != dquote)) with
              | none => none
              | some s9 =>
                afterDesc ((dropWS s3).takeWhile isNameChar)
                  (s7.takeWhile (fun ch => ch != dquote)) s9
          else none

/-- The `re.finditer` loop of line 35: try a match at every position, restart
after the end of each match (matches are non-overlapping, found in
left-to-right order).  The fuel argument is the length of the scanned text;
it never runs out because every successful match consumes at least one
character. -/
def scanLoop : Nat → List Char → List OptionRecord
  | 0, _ => []
  | _, [] => []
  | fuel + 1, c :: t =>
    match matchOptionAt (c :: t) with
    | some (r, rest) => r :: scanLoop fuel rest
    | none => scanLoop fuel t

/-- All pattern matches of the option regex in `content`, in document order
(the pure core of `parse_cmake_options`, lines 30-46). -/
def scanOptions (s : List Char) : List OptionRecord := scanLoop s.length s

/-- The stderr line of line 27: `Error reading file {path}: {e}`. -/
def readErrMsg (path e : List Char) : List Char :=
  "Error reading file ".data ++ path ++ ": ".data ++ e

/-- `parse_cmake_options` (lines 10-46): the read step is modelled by an
`Except` value (error message or file content); a read failure prints the
diagnostic and returns the empty list.  Result: extracted records paired with
the emitted stderr lines. -/
def parse_cmake_options (path : List Char) :
    Except (List Char) (List Char) → List OptionRecord × List (List Char)
  | .error e => ([], [readErrMsg path e])
  | .ok content => (scanOptions content, [])

/-- Preamble sentence of the generated table (line 63). -/
def introLine : List Char :=
  "The following CMake build options can be used to configure the build by setting them with `-D<OPTION>=<VALUE>`.".data

/-- Table header row (line 65). -/
def headerLine : List Char := "| Option | Description | Default |".data

/-- Header separator row (line 66). -/
def sepLine : List Char := "|--------|-------------|---------|".data

/-- The fixed installation-prefix row (line 67). -/
def installRow : List Char :=
  "| CMAKE_INSTALL_PREFIX | Installation path | /usr/local |".data

/-- The empty-result sentence (line 59). -/
def noOptionsMsg : List Char := "No CMake options found.".data

/-- One data row, the f-string of line 72. -/
def fmtRow (o : OptionRecord) : List Char :=
  "| ".data ++ o.name ++ " | ".data ++ o.description ++ " | ".data ++
    o.default ++ " |".data

/-- `"\n".join` (line 74). -/
def joinLines : List (List Char) → List Char
  | [] => []
  | [l] => l
  | l :: ls => l ++ '\n' :: joinLines ls

/-- `generate_doxygen_table` (lines 48-74). -/
def generate_doxygen_table (options : List OptionRecord) : List Char :=
  if options = [] then noOptionsMsg
  else
    joinLines ([introLine, [], headerLine, sepLine, installRow] ++
      options.map fmtRow)

/-- The default input filename of line 85. -/
def defaultPath : List Char := "CMakeLists.txt".data

/-- The stderr line of line 89: `Error: File '{path}' not found.` -/
def fileNotFoundMsg (path : List Char) : List Char :=
  "Error: File ".data ++ squote :: path ++ squote :: " not found.".data

/-- Externally observable state of one invocation: the optional first
positional argument, whether the resolved path names an existing regular file
(`os.path.isfile`), and the outcome of reading it. -/
structure ProgState where
  argPath : Option (List Char)
  pathIsFile : Bool
  readResult : Except (List Char) (List Char)

/-- Observable outcome of one run: exit status, bytes written to stdout, and
the lines written to stderr. -/
structure RunResult where
  exitCode : Nat
  stdoutBytes : List Char
  stderrLines : List (List Char)
  deriving DecidableEq, Repr

/-- `main` (lines 76-97): resolve the path, check `os.path.isfile` (exit 1
with a diagnostic if it fails), otherwise parse, format, and `print` the
result (which appends a trailing newline) with exit status 0. -/
def main_run (st : ProgState) : RunResult :=
  let cmake_path := st.argPath.getD defaultPath
  if st.pathIsFile then
    let po := parse_cmake_options cmake_path st.readResult
    { exitCode := 0
      stdoutBytes := generate_doxygen_table po.1 ++ ['\n']
      stderrLines := po.2 }
  else
    { exitCode := 1
      stdoutBytes := []
      stderrLines := [fileNotFoundMsg cmake_path] }

/-- A single `option(...)` declaration with zero whitespace around the
parentheses, exactly one space between the name and the opening quote, and an
arbitrary tail after the closing quote of the description: the generic input
shape used to analyse the matcher. -/
def declText (kw name desc tail : List Char) : List Char :=
  kw ++ '(' :: (name ++ ' ' :: dquote :: (desc ++ dquote :: tail))

/-- The list of lines from which the non-empty table is joined: the preamble
sentence, a blank line, the header and separator rows, the fixed
installation-prefix row, and one formatted row per record. -/
def tableLines (options : List OptionRecord) : List (List Char) :=
  [introLine, [], headerLine, sepLine, installRow] ++ options.map fmtRow

/-- A concrete input text with one declaration, `option(A "b")`. -/
def c1Content : List Char :=
  "option(A ".data ++ dquote :: 'b' :: dquote :: [')']

/-- A concrete run state whose file exists but cannot be read. -/
def c6State : ProgState := ⟨none, true, Except.error "boom".data⟩

/-- A concrete run state whose resolved path is not a regular file. -/
def c7State : ProgState := ⟨some "missing.txt".data, false, Except.ok []⟩

/-- A concrete run state with a readable file. -/
def c8State : ProgState :=
  ⟨some "CMakeLists.txt".data, true, Except.ok c1Content⟩

example :
    scanOptions ("option(A ".data ++ dquote :: 'b' :: dquote :: [')']) =
      [{ name := ['A'], description := ['b'], default := offDefault }] := by
  decide

example :
    scanOptions ("OPTION( FOO-2_x ".data ++ dquote :: "ha ha".data ++
        dquote :: " on )".data) =
      [{ name := "FOO-2_x".data, description := "ha ha".data,
         default := ['o', 'n'] }] := by
  decide

example : scanOptions ("option(FOO".data ++ dquote :: "bar".data ++
    [dquote, ')']) = [] := by decide

example :
    scanOptions ("option(A ".data ++ dquote :: 'b' :: dquote :: ' ' ::
        Char.ofNat 160 :: [')']) =
      [{ name := ['A'], description := ['b'], default := offDefault }] := by
  decide

theorem matchLitCI_length {lit s r : List Char} (h : matchLitCI lit s = some r) :
    r.length + lit.length = s.length := by
  induction lit generalizing s with
  | nil =>
    simp only [matchLitCI, Option.some.injEq] at h
    simp [h]
  | cons l ls ih =>
    cases s with
    | nil => simp [matchLitCI] at h
    | cons c t =>
      by_cases hc : c.toLower = l
      · rw [matchLitCI, if_pos hc] at h
        have := ih h
        simp only [List.length_cons]
        omega
      · rw [matchLitCI, if_neg hc] at h
        exact absurd h (by simp)

theorem matchChar_eq {ch : Char} {s r : List Char} (h : matchChar ch s = some r) :
    s = ch :: r := by
  cases s with
  | nil => simp [matchChar] at h
  | cons c t =>
    by_cases hc : c = ch
    · rw [matchChar, if_pos hc] at h
      simp only [Option.some.injEq] at h
      rw [hc, h]
    · rw [matchChar, if_neg hc] at h
      exact absurd h (by simp)

theorem dropWS_length (s : List Char) : (dropWS s).length ≤ s.length :=
  (List.dropWhile_suffix isWS).length_le

theorem tryTok_length {lit s tok r : List Char}
    (h : tryTok lit s = some (tok, r)) : r.length < s.length := by
  unfold tryTok at h
  split at h
  · exact absurd h (by simp)
  · rename_i r1 h1
    split at h
    · exact absurd h (by simp)
    · rename_i r2 h2
      simp only [Option.some.injEq, Prod.mk.injEq] at h
      obtain ⟨-, rfl⟩ := h
      have e1 := matchLitCI_length h1
      have e2 := matchChar_eq h2
      have e3 : (dropWS r1).length ≤ r1.length := dropWS_length r1
      rw [e2] at e3
      simp only [List.length_cons] at e3
      omega

theorem tryDefault_length {s tok r : List Char}
    (h : tryDefault s = some (tok, r)) : r.length < s.length := by
  unfold tryDefault at h
  split at h
  · rename_i x h1
    injection h with h2
    exact tryTok_length (h2 ▸ h1)
  · split at h
    · rename_i x h1
      injection h with h2
      exact tryTok_length (h2 ▸ h1)
    · split at h
      · rename_i x h1
        injection h with h2
        exact tryTok_length (h2 ▸ h1)
      · exact tryTok_length h

theorem afterDesc_length {n d s9 : List Char} {rec : OptionRecord}
    {rest : List Char} (h : afterDesc n d s9 = some (rec, rest)) :
    rest.length < s9.length := by
  unfold afterDesc at h
  split at h
  · rename_i tok rest1 h1
    simp only [Option.some.injEq, Prod.mk.injEq] at h
    obtain ⟨-, rfl⟩ := h
    exact lt_of_lt_of_le (tryDefault_length h1) (dropWS_length s9)
  · split at h
    · rename_i rest1 h1
      simp only [Option.some.injEq, Prod.mk.injEq] at h
      obtain ⟨-, rfl⟩ := h
      have e1 := matchChar_eq h1
      have e2 : (dropWS s9).length ≤ s9.length := dropWS_length s9
      rw [e1] at e2
      simp only [List.length_cons] at e2
      omega
    · exact absurd h (by simp)

theorem matchOptionAt_length {s : List Char} {rec : OptionRecord}
    {rest : List Char} (h : matchOptionAt s = some (rec, rest)) :
    rest.length < s.length := by
  unfold matchOptionAt at h
  split at h
  · exact absurd h (by simp)
  · rename_i s1 h1
    split at h
    · exact absurd h (by simp)
    · rename_i s3 h3
      have e1 := matchLitCI_length h1
      have e2 := matchChar_eq h3
      have e3 : (dropWS s1).length ≤ s1.length := dropWS_length s1
      rw [e2] at e3
      simp only [List.length_cons] at e3
      split at h
      · exact absurd h (by simp)
      · split at h
        · exact absurd h (by simp)
        · rename_i c s6 hs5
          split at h
          · split at h
            · exact absurd h (by simp)
            · rename_i s7 h7
              split at h
              · exact absurd h (by simp)
              · rename_i s9 h9
                have e4 : (dropWS s3).length ≤ s3.length := dropWS_length s3
                have e5 : ((dropWS s3).dropWhile isNameChar).length ≤
                    (dropWS s3).length :=
                  (List.dropWhile_suffix isNameChar).length_le
                have e6 := matchChar_eq h7
                have e7 : (dropWS s6).length ≤ s6.length := dropWS_length s6
                rw [e6] at e7
                simp only [List.length_cons] at e7
                have e8 : (s7.dropWhile (fun ch => ch != dquote)).length ≤
                    s7.length :=
                  (List.dropWhile_suffix _).length_le
                have e9 := matchChar_eq h9
                have e10 := afterDesc_length h
                have e11 : ((dropWS s3).dropWhile isNameChar).length =
                    s6.length + 1 := by rw [hs5]; simp
                have e12 : (s7.dropWhile (fun ch => ch != dquote)).length =
                    s9.length + 1 := by rw [e9]; simp
                omega
          · exact absurd h (by simp)

theorem scanLoop_congr :
    ∀ (f1 f2 : Nat) (s : List Char), s.length ≤ f1 → s.length ≤ f2 →
      scanLoop f1 s = scanLoop f2 s := by
  intro f1
  induction f1 with
  | zero =>
    intro f2 s h1 h2
    have : s = [] := by
      cases s with
      | nil => rfl
      | cons c t => simp at h1
    subst this
    cases f2 <;> rfl
  | succ a ih =>
    intro f2 s h1 h2
    cases s with
    | nil => cases f2 <;> rfl
    | cons c t =>
      cases f2 with
      | zero => simp at h2
      | succ b =>
        simp only [scanLoop]
        cases hm : matchOptionAt (c :: t) with
        | some pr =>
          obtain ⟨r, rest⟩ := pr
          have hlen := matchOptionAt_length hm
          simp only [List.length_cons] at h1 h2 hlen
          show r :: scanLoop a rest = r :: scanLoop b rest
          congr 1
          exact ih b rest (by omega) (by omega)
        | none =>
          simp only [List.length_cons] at h1 h2
          show scanLoop a t = scanLoop b t
          exact ih b t (by omega) (by omega)

theorem scanOptions_nil : scanOptions [] = [] := rfl

theorem scanOptions_cons_some {c : Char} {t : List Char} {r : OptionRecord}
    {rest : List Char} (h : matchOptionAt (c :: t) = some (r, rest)) :
    scanOptions (c :: t) = r :: scanOptions rest := by
  have hlen := matchOptionAt_length h
  simp only [List.length_cons] at hlen
  show scanLoop (t.length + 1) (c :: t) = _
  simp only [scanLoop, h]
  congr 1
  exact scanLoop_congr t.length rest.length rest (by omega) le_rfl

theorem takeWhile_split (p : Char → Bool) (xs : List Char) (y : Char)
    (ys : List Char) (hall : ∀ c ∈ xs, p c = true) (hy : p y = false) :
    (xs ++ y :: ys).takeWhile p = xs ∧ (xs ++ y :: ys).dropWhile p = y :: ys := by
  induction xs with
  | nil => simp [List.takeWhile_cons, List.dropWhile_cons, hy]
  | cons a t ih =>
    have ha : p a = true := hall a (List.mem_cons_self a t)
    have iht := ih (fun c hc => hall c (List.mem_cons_of_mem a hc))
    simp [List.takeWhile_cons, List.dropWhile_cons, ha, iht.1, iht.2]

theorem matchLitCI_ci_prefix (kw rest : List Char) :
    matchLitCI (kw.map Char.toLower) (kw ++ rest) = some rest := by
  induction kw with
  | nil => rfl
  | cons c t ih => simp [matchLitCI, ih]

theorem matchChar_cons_self (ch : Char) (t : List Char) :
    matchChar ch (ch :: t) = some t := by simp [matchChar]

theorem dropWS_cons_of_neg {c : Char} (h : isWS c = false) (t : List Char) :
    dropWS (c :: t) = c :: t := by
  unfold dropWS
  exact List.dropWhile_cons_of_neg (by simp [h])

theorem dropWS_cons_of_pos {c : Char} (h : isWS c = true) (t : List Char) :
    dropWS (c :: t) = dropWS t := by
  unfold dropWS
  exact List.dropWhile_cons_of_pos h

theorem isWS_toLower_eq {c : Char} (h : isWS c = true) : c.toLower = c := by
  simp only [isWS, Bool.or_eq_true, beq_iff_eq] at h
  rcases h with
    ((((((((((((((((((((((((((((h | h) | h) | h) | h) | h) | h) | h) | h) | h) | h) | h) | h) | h) | h) | h) | h) | h) | h) | h) | h) | h) | h) | h) | h) | h) | h) | h) | h) <;>
    subst h <;> decide

theorem not_ws_of_toLower {c x : Char} (h : c.toLower = x)
    (hx : isWS x = false) : isWS c = false := by
  cases hws : isWS c with
  | false => rfl
  | true =>
    rw [isWS_toLower_eq hws] at h
    rw [← h, hws] at hx
    exact absurd hx (by simp)

theorem nameChar_not_ws {c : Char} (h : isNameChar c = true) :
    isWS c = false := by
  cases hws : isWS c with
  | false => rfl
  | true =>
    simp only [isWS, Bool.or_eq_true, beq_iff_eq] at hws
    rcases hws with
      ((((((((((((((((((((((((((((h1 | h1) | h1) | h1) | h1) | h1) | h1) | h1) | h1) | h1) | h1) | h1) | h1) | h1) | h1) | h1) | h1) | h1) | h1) | h1) | h1) | h1) | h1) | h1) | h1) | h1) | h1) | h1) | h1) <;>
      rw [h1] at h <;> exact absurd h (by decide)

theorem matchOptionAt_declText (kw name desc tail : List Char)
    (hkw : kw.map Char.toLower = optionLit)
    (hne : name ≠ [])
    (hname : ∀ c ∈ name, isNameChar c = true)
    (hdesc : ∀ c ∈ desc, (c != dquote) = true) :
    matchOptionAt (declText kw name desc tail) = afterDesc name desc tail := by
  obtain ⟨n0, nt, rfl⟩ : ∃ n0 nt, name = n0 :: nt := by
    cases name with
    | nil => exact absurd rfl hne
    | cons a b => exact ⟨a, b, rfl⟩
  have hn0 : isWS n0 = false :=
    nameChar_not_ws (hname n0 (List.mem_cons_self _ _))
  have h1 : matchLitCI optionLit
      (kw ++ '(' :: (n0 :: nt ++ ' ' :: dquote :: (desc ++ dquote :: tail))) =
      some ('(' :: (n0 :: nt ++ ' ' :: dquote :: (desc ++ dquote :: tail))) := by
    rw [← hkw]
    exact matchLitCI_ci_prefix kw _
  have hsplit := takeWhile_split isNameChar (n0 :: nt) ' '
    (dquote :: (desc ++ dquote :: tail)) hname (by decide)
  have hdsplit := takeWhile_split (fun ch => ch != dquote) desc dquote tail
    hdesc (by decide)
  simp only [List.cons_append] at h1 hsplit
  simp only [declText, matchOptionAt, List.cons_append, h1,
    dropWS_cons_of_neg (show isWS '(' = false by decide),
    dropWS_cons_of_neg (show isWS dquote = false by decide),
    dropWS_cons_of_neg hn0,
    matchChar_cons_self, hsplit.1, hsplit.2,
    dropWS_cons_of_pos (show isWS ' ' = true by decide),
    hdsplit.1, hdsplit.2]
  simp [dropWS_cons_of_neg (show isWS dquote = false by decide),
    matchChar_cons_self, show isWS ' ' = true by decide]

theorem scanOptions_declText (kw name desc tail : List Char)
    (hkw : kw.map Char.toLower = optionLit)
    (hne : name ≠ [])
    (hname : ∀ c ∈ name, isNameChar c = true)
    (hdesc : ∀ c ∈ desc, (c != dquote) = true)
    {rec : OptionRecord} (hafter : afterDesc name desc tail = some (rec, [])) :
    scanOptions (declText kw name desc tail) = [rec] := by
  have hm : matchOptionAt (declText kw name desc tail) = some (rec, []) := by
    rw [matchOptionAt_declText kw name desc tail hkw hne hname hdesc, hafter]
  obtain ⟨k0, kt, hk⟩ : ∃ k0 kt, kw = k0 :: kt := by
    cases kw with
    | nil => exact absurd hkw (by decide)
    | cons a b => exact ⟨a, b, rfl⟩
  have hdecl : declText kw name desc tail =
      k0 :: (kt ++ '(' :: (name ++ ' ' :: dquote :: (desc ++ dquote :: tail))) := by
    rw [hk]
    simp [declText]
  rw [hdecl] at hm ⊢
  rw [scanOptions_cons_some hm]
  rfl

theorem afterDesc_token (name desc tok : List Char)
    (htok : tok.map Char.toLower = onLit ∨ tok.map Char.toLower = offLitPat ∨
      tok.map Char.toLower = trueLit ∨ tok.map Char.toLower = falseLit) :
    afterDesc name desc (' ' :: (tok ++ [')'])) =
      some ({ name := name, description := desc, default := tok }, []) := by
  rcases htok with h | h | h | h
  · obtain ⟨a, b, rfl⟩ : ∃ a b, tok = [a, b] := by
      cases tok with
      | nil => simp [onLit] at h
      | cons a t =>
        cases t with
        | nil => simp [onLit] at h
        | cons b u =>
          cases u with
          | nil => exact ⟨a, b, rfl⟩
          | cons c v => simp [onLit] at h
    simp only [onLit, List.map_cons, List.map_nil, List.cons.injEq,
      and_true] at h
    obtain ⟨ha, hb⟩ := h
    have ha' : isWS a = false := not_ws_of_toLower ha (by decide)
    simp [afterDesc, tryDefault, tryTok, matchLitCI, matchChar, onLit,
      dropWS_cons_of_pos (show isWS ' ' = true by decide),
      dropWS_cons_of_neg ha',
      dropWS_cons_of_neg (show isWS ')' = false by decide), ha, hb]
  · obtain ⟨a, b, c, rfl⟩ : ∃ a b c, tok = [a, b, c] := by
      cases tok with
      | nil => simp [offLitPat] at h
      | cons a t =>
        cases t with
        | nil => simp [offLitPat] at h
        | cons b u =>
          cases u with
          | nil => simp [offLitPat] at h
          | cons c v =>
            cases v with
            | nil => exact ⟨a, b, c, rfl⟩
            | cons d w => simp [offLitPat] at h
    simp only [offLitPat, List.map_cons, List.map_nil, List.cons.injEq,
      and_true] at h
    obtain ⟨ha, hb, hc⟩ := h
    have ha' : isWS a = false := not_ws_of_toLower ha (by decide)
    simp [afterDesc, tryDefault, tryTok, matchLitCI, matchChar, onLit,
      offLitPat,
      dropWS_cons_of_pos (show isWS ' ' = true by decide),
      dropWS_cons_of_neg ha',
      dropWS_cons_of_neg (show isWS ')' = false by decide), ha, hb, hc]
  · obtain ⟨a, b, c, d, rfl⟩ : ∃ a b c d, tok = [a, b, c, d] := by
      cases tok with
      | nil => simp [trueLit] at h
      | cons a t =>
        cases t with
        | nil => simp [trueLit] at h
        | cons b u =>
          cases u with
          | nil => simp [trueLit] at h
          | cons c v =>
            cases v with
            | nil => simp [trueLit] at h
            | cons d w =>
              cases w with
              | nil => exact ⟨a, b, c, d, rfl⟩
              | cons e y => simp [trueLit] at h
    simp only [trueLit, List.map_cons, List.map_nil, List.cons.injEq,
      and_true] at h
    obtain ⟨ha, hb, hc, hd⟩ := h
    have ha' : isWS a = false := not_ws_of_toLower ha (by decide)
    simp [afterDesc, tryDefault, tryTok, matchLitCI, matchChar, onLit,
      offLitPat, trueLit,
      dropWS_cons_of_pos (show isWS ' ' = true by decide),
      dropWS_cons_of_neg ha',
      dropWS_cons_of_neg (show isWS ')' = false by decide), ha, hb, hc, hd]
  · obtain ⟨a, b, c, d, e, rfl⟩ : ∃ a b c d e, tok = [a, b, c, d, e] := by
      cases tok with
      | nil => simp [falseLit] at h
      | cons a t =>
        cases t with
        | nil => simp [falseLit] at h
        | cons b u =>
          cases u with
          | nil => simp [falseLit] at h
          | cons c v =>
            cases v with
            | nil => simp [falseLit] at h
            | cons d w =>
              cases w with
              | nil => simp [falseLit] at h
              | cons e y =>
                cases y with
                | nil => exact ⟨a, b, c, d, e, rfl⟩
                | cons f z => simp [falseLit] at h
    simp only [falseLit, List.map_cons, List.map_nil, List.cons.injEq,
      and_true] at h
    obtain ⟨ha, hb, hc, hd, he⟩ := h
    have ha' : isWS a = false := not_ws_of_toLower ha (by decide)
    simp [afterDesc, tryDefault, tryTok, matchLitCI, matchChar, onLit,
      offLitPat, trueLit, falseLit,
      dropWS_cons_of_pos (show isWS ' ' = true by decide),
      dropWS_cons_of_neg ha',
      dropWS_cons_of_neg (show isWS ')' = false by decide), ha, hb, hc, hd, he]

/-- C1 (amended: restricted to inputs with at least one pattern match): the
formatter output is the join of the four fixed preamble/header lines, the
fixed installation-prefix row placed first among the data rows, and exactly
one data row per extractor match, in left-to-right match order, each row
rendering the record's name, description, and default verbatim; no match is
dropped or merged. -/
theorem table_rows_match_extraction (content : List Char)
    (h : scanOptions content ≠ []) :
    generate_doxygen_table (scanOptions content) =
        joinLines (tableLines (scanOptions content)) ∧
      (tableLines (scanOptions content)).take 5 =
        [introLine, [], headerLine, sepLine, installRow] ∧
      (tableLines (scanOptions content)).drop 5 =
        (scanOptions content).map fmtRow ∧
      ((scanOptions content).map fmtRow).length =
        (scanOptions content).length ∧
      (scanOptions content).map fmtRow = (scanOptions content).map
        (fun o => "| ".data ++ o.name ++ " | ".data ++ o.description ++
          " | ".data ++ o.default ++ " |".data) := by
  refine ⟨?_, ?_, ?_, ?_, ?_⟩
  · simp [generate_doxygen_table, tableLines, h]
  · simp [tableLines]
  · simp [tableLines]
  · simp
  · rfl

theorem table_rows_match_extraction_witness :
    generate_doxygen_table (scanOptions c1Content) =
        joinLines (tableLines (scanOptions c1Content)) ∧
      (tableLines (scanOptions c1Content)).take 5 =
        [introLine, [], headerLine, sepLine, installRow] ∧
      (tableLines (scanOptions c1Content)).drop 5 =
        (scanOptions c1Content).map fmtRow ∧
      ((scanOptions c1Content).map fmtRow).length =
        (scanOptions c1Content).length ∧
      (scanOptions c1Content).map fmtRow = (scanOptions c1Content).map
        (fun o => "| ".data ++ o.name ++ " | ".data ++ o.description ++
          " | ".data ++ o.default ++ " |".data) :=
  table_rows_match_extraction c1Content (by decide)

/-- C1 counterexample: on an input text with zero pattern matches the
formatter emits the bare empty-result message, which contains no pipe
character and hence no installation-prefix row at all, contradicting the
claim's unrestricted quantification over every input text. -/
theorem table_rows_empty_counterexample :
    scanOptions ['x'] = [] ∧
      generate_doxygen_table (scanOptions ['x']) = noOptionsMsg ∧
      ¬ ('|' ∈ generate_doxygen_table (scanOptions ['x'])) := by
  decide

/-- C2 (amended): a record is produced with zero whitespace between the
keyword and the opening parenthesis, the opening parenthesis and the name,
the closing quote and the default token, and the default token and the
closing parenthesis — but at least one whitespace character between the name
and the opening quote of the description is required (the declaration below
carries exactly one space there and no other inter-token whitespace); the
keyword is matched case-insensitively. -/
theorem record_zero_ws_gaps (kw name desc : List Char)
    (hkw : kw.map Char.toLower = optionLit)
    (hne : name ≠ [])
    (hname : ∀ c ∈ name, isNameChar c = true)
    (hdesc : ∀ c ∈ desc, (c != dquote) = true) :
    scanOptions (declText kw name desc ('O' :: 'N' :: [')'])) =
      [{ name := name, description := desc, default := ['O', 'N'] }] := by
  apply scanOptions_declText kw name desc _ hkw hne hname hdesc
  rfl

theorem record_zero_ws_gaps_witness :
    scanOptions (declText "OPTION".data "FOO".data "Build tests".data
        ('O' :: 'N' :: [')'])) =
      [{ name := "FOO".data, description := "Build tests".data,
         default := ['O', 'N'] }] :=
  record_zero_ws_gaps "OPTION".data "FOO".data "Build tests".data (by decide)
    (by decide) (by decide) (by decide)

/-- C2 counterexample: with zero whitespace characters between the name token
and the opening quote of the description (input `option(FOO"bar")`), the
pattern's mandatory whitespace does not match and the extractor produces no
record at all for the declaration. -/
theorem no_record_without_ws_before_quote :
    scanOptions ("option(FOO".data ++ dquote :: ("bar".data ++
      [dquote, ')'])) = [] := by
  decide

/-- C3: on the empty record sequence the formatter returns exactly the
literal sentence `No CMake options found.` and nothing else — no explanatory
sentence, no header rows, no installation-prefix row. -/
theorem empty_options_message :
    generate_doxygen_table [] = "No CMake options found.".data := by
  rfl

/-- C4: when the optional default token is absent from a matched declaration,
the resulting record's default field is the fixed fallback string `OFF`. -/
theorem absent_default_is_off (kw name desc : List Char)
    (hkw : kw.map Char.toLower = optionLit)
    (hne : name ≠ [])
    (hname : ∀ c ∈ name, isNameChar c = true)
    (hdesc : ∀ c ∈ desc, (c != dquote) = true) :
    scanOptions (declText kw name desc [')']) =
      [{ name := name, description := desc, default := offDefault }] := by
  apply scanOptions_declText kw name desc _ hkw hne hname hdesc
  rfl

theorem absent_default_is_off_witness :
    scanOptions (declText "option".data "ENABLE_DOCS".data "Build docs".data
        [')']) =
      [{ name := "ENABLE_DOCS".data, description := "Build docs".data,
         default := offDefault }] :=
  absent_default_is_off "option".data "ENABLE_DOCS".data "Build docs".data
    (by decide) (by decide) (by decide) (by decide)

/-- C5: the keyword and the default tokens ON/OFF/TRUE/FALSE are matched
case-insensitively, and a present default token is stored in the record
exactly as written in the source text, not re-cased. -/
theorem case_insensitive_literal_capture (kw name desc tok : List Char)
    (hkw : kw.map Char.toLower = optionLit)
    (hne : name ≠ [])
    (hname : ∀ c ∈ name, isNameChar c = true)
    (hdesc : ∀ c ∈ desc, (c != dquote) = true)
    (htok : tok.map Char.toLower = onLit ∨ tok.map Char.toLower = offLitPat ∨
      tok.map Char.toLower = trueLit ∨ tok.map Char.toLower = falseLit) :
    scanOptions (declText kw name desc (' ' :: (tok ++ [')']))) =
      [{ name := name, description := desc, default := tok }] := by
  apply scanOptions_declText kw name desc _ hkw hne hname hdesc
  exact afterDesc_token name desc tok htok

theorem case_insensitive_literal_capture_witness :
    scanOptions (declText "OPTION".data "FOO".data "bar".data
        (' ' :: ("on".data ++ [')']))) =
      [{ name := "FOO".data, description := "bar".data,
         default := "on".data }] :=
  case_insensitive_literal_capture "OPTION".data "FOO".data "bar".data
    "on".data (by decide) (by decide) (by decide) (by decide)
    (Or.inl (by decide))

/-- C6: after the existence check passes, a read failure makes the extractor
write the diagnostic to the error channel and return the empty sequence; the
program then prints the empty-result message to standard output (with the
trailing newline of `print`) and exits with status 0. -/
theorem read_failure_empty_and_exit_zero (st : ProgState) (e : List Char)
    (hf : st.pathIsFile = true) (hr : st.readResult = Except.error e) :
    (parse_cmake_options (st.argPath.getD defaultPath) st.readResult).1 =
        [] ∧
      main_run st =
        { exitCode := 0,
          stdoutBytes := noOptionsMsg ++ ['\n'],
          stderrLines := [readErrMsg (st.argPath.getD defaultPath) e] } := by
  constructor
  · rw [hr]
    rfl
  · simp [main_run, hf, hr, parse_cmake_options, generate_doxygen_table]

theorem read_failure_empty_and_exit_zero_witness :
    (parse_cmake_options (c6State.argPath.getD defaultPath)
        c6State.readResult).1 = [] ∧
      main_run c6State =
        { exitCode := 0,
          stdoutBytes := noOptionsMsg ++ ['\n'],
          stderrLines := [readErrMsg (c6State.argPath.getD defaultPath)
            "boom".data] } :=
  read_failure_empty_and_exit_zero c6State "boom".data rfl rfl

/-- C7: when the resolved input path does not name an existing regular file,
the program writes one diagnostic line to the error channel, writes zero
bytes to standard output, and terminates with exit code 1. -/
theorem missing_file_exit_one (st : ProgState)
    (hf : st.pathIsFile = false) :
    main_run st =
      { exitCode := 1, stdoutBytes := [],
        stderrLines := [fileNotFoundMsg (st.argPath.getD defaultPath)] } := by
  simp [main_run, hf]

theorem missing_file_exit_one_witness :
    main_run c7State =
      { exitCode := 1, stdoutBytes := [],
        stderrLines := [fileNotFoundMsg (c7State.argPath.getD
          defaultPath)] } :=
  missing_file_exit_one c7State rfl

/-- C8: the end-to-end transformation is deterministic — two runs on
identical observable input (same argument, same existence-check outcome, same
read content) produce identical results, in particular byte-identical
standard output. -/
theorem run_deterministic (st1 st2 : ProgState)
    (h1 : st1.argPath = st2.argPath) (h2 : st1.pathIsFile = st2.pathIsFile)
    (h3 : st1.readResult = st2.readResult) :
    main_run st1 = main_run st2 := by
  obtain ⟨a1, b1, r1⟩ := st1
  obtain ⟨a2, b2, r2⟩ := st2
  cases h1
  cases h2
  cases h3
  rfl

theorem run_deterministic_witness :
    main_run c8State = main_run c8State :=
  run_deterministic c8State c8State rfl rfl rfl

/-- C10: a quoted description containing newline characters still matches
(the description character class excludes only the double quote), and the
record is rendered literally, so its single logical table row contains a
newline and therefore spans multiple physical output lines. -/
theorem multiline_description_matches (kw name desc : List Char)
    (hkw : kw.map Char.toLower = optionLit)
    (hne : name ≠ [])
    (hname : ∀ c ∈ name, isNameChar c = true)
    (hdesc : ∀ c ∈ desc, (c != dquote) = true)
    (hnl : '\n' ∈ desc) :
    scanOptions (declText kw name desc [')']) =
      [{ name := name, description := desc, default := offDefault }] ∧
      '\n' ∈ fmtRow
        { name := name, description := desc, default := offDefault } := by
  constructor
  · apply scanOptions_declText kw name desc _ hkw hne hname hdesc
    rfl
  · simp [fmtRow, hnl]

theorem multiline_description_matches_witness :
    scanOptions (declText "option".data "FOO".data ['l', '1', '\n', 'l', '2']
        [')']) =
      [{ name := "FOO".data, description := ['l', '1', '\n', 'l', '2'],
         default := offDefault }] ∧
      '\n' ∈ fmtRow
        { name := "FOO".data, description := ['l', '1', '\n', 'l', '2'],
          default := offDefault } :=
  multiline_description_matches "option".data "FOO".data
    ['l', '1', '\n', 'l', '2'] (by decide) (by decide) (by decide)
    (by decide) (by decide)
